import Mathlib

/-!
Verification of the DBoW2 demo pipeline (demo/demo.cpp).

The repository's own orchestration code is `demo/demo.cpp`: it extracts ORB
features, trains/saves a vocabulary (`testVocCreation`), builds or loads a
similarity database, queries it for every target image and emits a YAML
report (`testDatabase`).  The DBoW2 library classes used by the demo
(`OrbVocabulary`, `OrbDatabase`, their `create`/`add`/`query`/`save`/`load`
methods) are external collaborators whose sources are not part of the demo
file; they are modelled from the specification, symbolically where the spec
declares them opaque (the clustering geometry, the scoring formula).

Conventions of the embedding:
* a `cv::Mat` descriptor row is a `List Nat`; an image's descriptor set a
  `List (List Nat)`;
* a trained vocabulary is represented symbolically by its construction
  parameters together with the corpus it was trained on, since the spec
  treats the trained structure as opaque;
* a bag-of-words vector is the symbolic application of a vocabulary to a
  descriptor set;
* similarity scores are abstracted by a score function parameter with an
  `Int` codomain (the spec does not fix the scoring formula, only that
  results are ranked by descending score);
* the filesystem is a record holding the three files the demo touches at
  their fixed paths: `small_voc.yml.gz`, `small_db.yml.gz`, `output.yaml`.
-/

namespace Demo

/-- One ORB descriptor row (`cv::Mat` row), as in `changeStructure`. -/
abbrev Descriptor := List Nat

/-- The descriptor set of one image (`vector<cv::Mat>`). -/
abbrev ImageDescriptors := List Descriptor

/-- DBoW2 weighting schemes (`WeightingType` in the library headers). -/
inductive WeightingType where
  | TF_IDF
  | TF
  | IDF
  | BINARY
deriving DecidableEq, Repr

/-- DBoW2 scoring schemes (`ScoringType` in the library headers). -/
inductive ScoringType where
  | L1_NORM
  | L2_NORM
  | CHI_SQUARE
  | KL
  | BHATTACHARYYA
  | DOT_PRODUCT
deriving DecidableEq, Repr

/-- Modelled from the spec: a `Vocabulary` is "an opaque trained structure
(branching factor `k`, depth `L`, a weighting scheme, a scoring scheme)".
The trainer is an external collaborator, so the trained structure is
represented symbolically by its parameters and the corpus it was trained
on: two vocabularies are equal exactly when they were built the same way. -/
structure OrbVocabulary where
  k : Nat
  L : Nat
  weighting : WeightingType
  scoring : ScoringType
  corpus : List ImageDescriptors
deriving DecidableEq, Repr

/-- The C++ constructor `OrbVocabulary(k, L, weight, scoring)`: an untrained
vocabulary with the given parameters. -/
def OrbVocabulary.init (k L : Nat) (w : WeightingType) (s : ScoringType) :
    OrbVocabulary :=
  ⟨k, L, w, s, []⟩

/-- Modelled from the spec: `voc.create(corpus)` trains the vocabulary on
`corpus`, keeping the construction parameters. -/
def OrbVocabulary.create (v : OrbVocabulary) (corpus : List ImageDescriptors) :
    OrbVocabulary :=
  { v with corpus := corpus }

/-- Modelled from the spec: a bag-of-words vector is the result of
transforming a descriptor set through a vocabulary; the histogram itself is
opaque, so it is represented by the pair of its inputs. -/
structure BowVector where
  voc : OrbVocabulary
  features : ImageDescriptors
deriving DecidableEq, Repr

/-- Modelled from the spec: `voc.transform(features)` maps a descriptor set
to its bag-of-words vector under `voc`. -/
def OrbVocabulary.transform (v : OrbVocabulary) (features : ImageDescriptors) :
    BowVector :=
  ⟨v, features⟩

/-- Modelled from the spec: the inverted-index database holds the vocabulary
it is bound to and the stored entries, one histogram per added image, in
insertion order (entry ids are positions). -/
structure OrbDatabase where
  voc : OrbVocabulary
  entries : List BowVector
deriving DecidableEq, Repr

/-- Modelled from the spec: `db.add(features)` transforms the descriptor set
through the bound vocabulary, appends the entry, and returns the assigned
id, which is the entry's position (the previous size). -/
def OrbDatabase.add (db : OrbDatabase) (features : ImageDescriptors) :
    OrbDatabase × Nat :=
  ({ db with entries := db.entries ++ [db.voc.transform features] },
   db.entries.length)

/-- A query result pair, as DBoW2's `Result`: an entry id and a score. -/
structure Result where
  Id : Nat
  Score : Int
deriving DecidableEq, Repr

/-- Ranking order on results, modelled from the spec: descending score,
ties broken by ascending entry id. -/
def resultBefore (a b : Result) : Bool :=
  decide (b.Score < a.Score) ||
    (decide (a.Score = b.Score) && decide (a.Id ≤ b.Id))

/-- Insert a result into a ranked list, keeping the ranking order. -/
def insertResult (r : Result) : List Result → List Result
  | [] => [r]
  | x :: xs => if resultBefore r x then r :: x :: xs else x :: insertResult r xs

/-- Sort results by descending score, ties by ascending id. -/
def sortResults : List Result → List Result
  | [] => []
  | r :: rs => insertResult r (sortResults rs)

/-- Score every stored entry against the query vector; the entry at list
position `p` of the remaining entries receives id `i + p`. -/
def scoreEntries (score : BowVector → BowVector → Int) (v : BowVector) :
    Nat → List BowVector → List Result
  | _, [] => []
  | i, e :: es => ⟨i, score v e⟩ :: scoreEntries score v (i + 1) es

/-- Modelled from the spec: `db.query(features, topN)` transforms the query
set into a histogram, scores it against every stored entry, sorts by
descending score with ties broken by ascending id, and returns at most
`topN` results; `topN ≤ 0` or an empty index yields an empty result. -/
def OrbDatabase.query (db : OrbDatabase) (score : BowVector → BowVector → Int)
    (features : ImageDescriptors) (maxResults : Int) : List Result :=
  (sortResults (scoreEntries score (db.voc.transform features) 0 db.entries)).take
    maxResults.toNat

/-- One record of the YAML `proposals` sequence: a stripped memory image
name and a similarity score. -/
structure Proposal where
  file_name : String
  score : Int
deriving DecidableEq, Repr

/-- The top-level YAML node `data` of the report: an ordered mapping from
stripped target image name to its proposal list, in insertion order. -/
abbrev YamlMap := List (String × List Proposal)

/-- The filesystem state the demo touches, one field per fixed path:
`small_voc.yml.gz`, `small_db.yml.gz` and `output.yaml`.  `none` means the
file does not exist. -/
structure FileSystem where
  vocFile : Option OrbVocabulary
  dbFile : Option OrbDatabase
  outputYaml : Option YamlMap
deriving DecidableEq, Repr

/-- Modelled from the spec: `voc.save("small_voc.yml.gz")` persists the
vocabulary; deserializing returns an equal vocabulary. -/
def OrbVocabulary.save (v : OrbVocabulary) (fs : FileSystem) : FileSystem :=
  { fs with vocFile := some v }

/-- Modelled from the spec: `voc.load("small_voc.yml.gz")`; `none` when the
file is missing, which the spec classifies as a fatal persistence error. -/
def OrbVocabulary.load (fs : FileSystem) : Option OrbVocabulary :=
  fs.vocFile

/-- Modelled from the spec: `db.save("small_db.yml.gz")` persists the
database together with its embedded vocabulary. -/
def OrbDatabase.save (db : OrbDatabase) (fs : FileSystem) : FileSystem :=
  { fs with dbFile := some db }

/-- Modelled from the spec: `db.load("small_db.yml.gz")` deserializes the
persisted database, which embeds its own vocabulary. -/
def OrbDatabase.load (fs : FileSystem) : Option OrbDatabase :=
  fs.dbFile

/-- Does the character list contain a path separator? -/
def containsSlash : List Char → Bool
  | [] => false
  | c :: rest => decide (c = '/') || containsSlash rest

/-- Core of `get_file_name` on character lists.  The C++ loop repeatedly
finds the first `"/"` and erases the prefix up to and including it, so it
returns exactly the suffix after the last separator; this recursion
computes that suffix: a separator restarts the scan, and a non-separator
character is kept only when no separator follows. -/
def lastPathComponent : List Char → List Char
  | [] => []
  | c :: rest =>
      if c = '/' then lastPathComponent rest
      else if containsSlash rest then lastPathComponent rest
      else c :: rest

/-- `get_file_name` from demo.cpp: strip every `"/"`-delimited prefix and
return the remaining final component. -/
def get_file_name (path : String) : String :=
  String.mk (lastPathComponent path.data)

/-- `testVocCreation` from demo.cpp: build a `9^3` TF-IDF, L1-norm
vocabulary, train it on the memory images, and save it — unconditionally,
with no existence check on the vocabulary file.  The trained vocabulary is
also returned so its value can be stated. -/
def testVocCreation (memory_imgs : List ImageDescriptors) (fs : FileSystem) :
    OrbVocabulary × FileSystem :=
  let k := 9
  let L := 3
  let weight := WeightingType.TF_IDF
  let scoring := ScoringType.L1_NORM
  let voc := (OrbVocabulary.init k L weight scoring).create memory_imgs
  (voc, voc.save fs)

/-- Modelled from the spec (§4.2), for comparison with `testVocCreation`:
`trainOrLoad(path, memoryCorpus, params)` returns the deserialized
vocabulary when the persisted file exists, ignoring `memoryCorpus`, and
otherwise trains on `memoryCorpus` with the given parameters and persists
the result. -/
def trainOrLoad (fs : FileSystem) (memoryCorpus : List ImageDescriptors)
    (k L : Nat) (w : WeightingType) (s : ScoringType) :
    OrbVocabulary × FileSystem :=
  match OrbVocabulary.load fs with
  | some v => (v, fs)
  | none =>
      let voc := (OrbVocabulary.init k L w s).create memoryCorpus
      (voc, voc.save fs)

/-- Build the proposal list for one query result list: one record per
result, in ranking order, naming `memory_img_names[r.Id]` stripped of its
directory prefix. -/
def mkProposals (memory_img_names : List String) (ret : List Result) :
    List Proposal :=
  ret.map fun r => ⟨get_file_name (memory_img_names.getD r.Id ""), r.Score⟩

/-- Keys of a YAML mapping node. -/
def yamlKeys (m : YamlMap) : List String :=
  m.map Prod.fst

/-- YAML-cpp map assignment `data[k] = v`: replace the value in place when
the key is already present (keeping its position), otherwise append the new
pair. -/
def yamlAssign (m : YamlMap) (k : String) (v : List Proposal) : YamlMap :=
  if m.any (fun p => p.1 = k) then
    m.map (fun p => if p.1 = k then (k, v) else p)
  else
    m ++ [(k, v)]

/-- Lookup in a YAML mapping node: the value of the first pair whose key
matches. -/
def yamlLookup : YamlMap → String → Option (List Proposal)
  | [], _ => none
  | p :: m, k => if p.1 = k then some p.2 else yamlLookup m k

/-- The query/report loop of `testDatabase`: for each target, query the
database; when the result set is empty, skip the target; otherwise assign
its proposal list to the stripped target name in the YAML node. -/
def reportLoop (score : BowVector → BowVector → Int) (db : OrbDatabase)
    (memory_img_names : List String) (top_n : Int)
    (targets : List (ImageDescriptors × String)) (data : YamlMap) : YamlMap :=
  match targets with
  | [] => data
  | p :: rest =>
      let ret := db.query score p.1 top_n
      if ret.isEmpty then
        reportLoop score db memory_img_names top_n rest data
      else
        reportLoop score db memory_img_names top_n rest
          (yamlAssign data (get_file_name p.2) (mkProposals memory_img_names ret))

/-- The only fatal error `testDatabase` can raise in the embedding: the
fresh-build branch finds no persisted vocabulary to load. -/
inductive DemoError where
  | vocMissing
deriving DecidableEq, Repr

/-- `testDatabase` from demo.cpp.  When `small_db.yml.gz` exists the
database is loaded from it; otherwise the vocabulary is loaded from
`small_voc.yml.gz`, an empty database bound to it is created, every memory
image is added in corpus order, and the database is saved.  Either way
every target image is then queried and the YAML report is written to
`output.yaml`.  Returns the database actually used together with the final
filesystem. -/
def testDatabase (score : BowVector → BowVector → Int)
    (memory_imgs target_imgs : List ImageDescriptors)
    (memory_img_names target_img_names : List String) (top_n : Int)
    (fs : FileSystem) : Except DemoError (OrbDatabase × FileSystem) :=
  match OrbDatabase.load fs with
  | some db =>
      let data := reportLoop score db memory_img_names top_n
        (target_imgs.zip target_img_names) []
      .ok (db, { fs with outputYaml := some data })
  | none =>
      match OrbVocabulary.load fs with
      | none => .error DemoError.vocMissing
      | some voc =>
          let db0 : OrbDatabase := ⟨voc, []⟩
          let db := memory_imgs.foldl (fun d f => (d.add f).1) db0
          let fs1 := db.save fs
          let data := reportLoop score db memory_img_names top_n
            (target_imgs.zip target_img_names) []
          .ok (db, { fs1 with outputYaml := some data })

/-- The add loop of the fresh-build branch, instrumented with the id each
`add` call returns, so that the id-assignment discipline can be stated:
`(addAll db imgs).1` is the database after adding every image in order and
`(addAll db imgs).2` lists the ids assigned, in the same order. -/
def addAll (db : OrbDatabase) (imgs : List ImageDescriptors) :
    OrbDatabase × List Nat :=
  imgs.foldl (fun s f => ((s.1.add f).1, s.2 ++ [(s.1.add f).2])) (db, [])

/-- The targets whose query result set is non-empty, in processing order:
exactly those for which `testDatabase` emits a report entry. -/
def emittedTargets (score : BowVector → BowVector → Int) (db : OrbDatabase)
    (top_n : Int) (targets : List (ImageDescriptors × String)) :
    List (ImageDescriptors × String) :=
  targets.filter (fun p => !(db.query score p.1 top_n).isEmpty)

/-- The database component of a `testDatabase` outcome. -/
def resultDb (r : Except DemoError (OrbDatabase × FileSystem)) :
    Option OrbDatabase :=
  match r with
  | .ok (db, _) => some db
  | .error _ => none

/-- The emitted report of a `testDatabase` outcome. -/
def resultOutput (r : Except DemoError (OrbDatabase × FileSystem)) :
    Option YamlMap :=
  match r with
  | .ok (_, fs) => fs.outputYaml
  | .error _ => none

/-- Modelled from C++ `std::stoi`: skip leading whitespace, accept an
optional sign, then require at least one decimal digit; further non-digit
characters are ignored.  `none` models the `std::invalid_argument` thrown
when no digits are found. -/
def stoi? (s : String) : Option Int :=
  let l := s.data.dropWhile Char.isWhitespace
  let signed : Int × List Char :=
    match l with
    | '+' :: t => (1, t)
    | '-' :: t => (-1, t)
    | _ => (1, l)
  let ds := signed.2.takeWhile Char.isDigit
  if ds.isEmpty then none
  else some (signed.1 * (ds.foldl (fun a c => a * 10 + (c.toNat - '0'.toNat)) 0 : Nat))

/-- Outcome of a run of `main`.  `usageError` models printing the usage
message and returning `-1` (a non-zero exit status); `stoiAbort` models the
uncaught `std::invalid_argument` from `stoi`, which terminates the process
with a non-zero status; both carry the untouched filesystem, so no partial
output was produced.  `vocLoadAbort` models a fatal vocabulary-load failure
inside `testDatabase`. -/
inductive MainResult where
  | usageError (fs : FileSystem)
  | stoiAbort (fs : FileSystem)
  | vocLoadAbort (fs : FileSystem)
  | completed (voc : OrbVocabulary) (db : OrbDatabase) (fs : FileSystem)
deriving DecidableEq, Repr

/-- The live vocabulary visible at the end of a run: the trained one on a
completed run, otherwise whatever the vocabulary file holds. -/
def MainResult.vocOf : MainResult → Option OrbVocabulary
  | .usageError fs => fs.vocFile
  | .stoiAbort fs => fs.vocFile
  | .vocLoadAbort fs => fs.vocFile
  | .completed voc _ _ => some voc

/-- `main` from demo.cpp over the embedding.  `argv` includes the program
name, as `argc`/`argv` do; the descriptor corpora and name sequences stand
for the output of `loadFeatures` on the two directories, which is external
image I/O.  Checks the argument count, parses `TOP_N`, runs
`testVocCreation` and then `testDatabase`. -/
def mainRun (argv : List String) (score : BowVector → BowVector → Int)
    (memory : List ImageDescriptors) (memory_img_names : List String)
    (targets : List ImageDescriptors) (target_img_names : List String)
    (fs : FileSystem) : MainResult :=
  if argv.length ≠ 4 then .usageError fs
  else
    match stoi? (argv.getD 3 "") with
    | none => .stoiAbort fs
    | some top_n =>
        let vocAndFs := testVocCreation memory fs
        match testDatabase score memory targets memory_img_names
            target_img_names top_n vocAndFs.2 with
        | .error _ => .vocLoadAbort vocAndFs.2
        | .ok (db, fs2) => .completed vocAndFs.1 db fs2

/-- A concrete vocabulary with the demo's parameters, for concrete runs. -/
def wVoc : OrbVocabulary :=
  OrbVocabulary.init 9 3 WeightingType.TF_IDF ScoringType.L1_NORM

/-- A concrete constant score function, for concrete runs. -/
def wScore : BowVector → BowVector → Int := fun _ _ => 0

/-- A concrete score function that distinguishes the query image `[[1]]`
from others, for concrete runs exercising distinct scores. -/
def cexScore : BowVector → BowVector → Int :=
  fun a _ => if a.features = [[1]] then 2 else 1

/-! Helper lemmas about `get_file_name`. -/

theorem containsSlash_iff {l : List Char} : containsSlash l = true ↔ '/' ∈ l := by
  induction l with
  | nil => simp [containsSlash]
  | cons c rest ih =>
      constructor
      · intro h
        simp only [containsSlash, Bool.or_eq_true, decide_eq_true_eq] at h
        rcases h with h | h
        · exact List.mem_cons.2 (Or.inl h.symm)
        · exact List.mem_cons_of_mem _ (ih.mp h)
      · intro h
        rcases List.mem_cons.1 h with h | h
        · subst h; simp [containsSlash]
        · simp [containsSlash, ih.mpr h]

theorem lastPathComponent_of_no_slash {l : List Char}
    (h : containsSlash l = false) : lastPathComponent l = l := by
  induction l with
  | nil => rfl
  | cons c rest ih =>
      have hc : ¬c = '/' := by
        intro hc
        simp [containsSlash, hc] at h
      have hr : containsSlash rest = false := by
        cases hcr : containsSlash rest with
        | false => rfl
        | true => simp [containsSlash, hcr] at h
      simp [lastPathComponent, hc, hr]

theorem containsSlash_append_slash (xs ys : List Char) :
    containsSlash (xs ++ '/' :: ys) = true := by
  induction xs with
  | nil => simp [containsSlash]
  | cons c rest ih => simp [containsSlash, ih]

theorem lastPathComponent_append_slash (xs ys : List Char) :
    lastPathComponent (xs ++ '/' :: ys) = lastPathComponent ys := by
  induction xs with
  | nil => simp [lastPathComponent]
  | cons c rest ih =>
      by_cases hc : c = '/'
      · simp [lastPathComponent, hc, ih]
      · simp [lastPathComponent, hc, containsSlash_append_slash, ih]

theorem slash_not_mem_lastPathComponent (l : List Char) :
    '/' ∉ lastPathComponent l := by
  induction l with
  | nil => simp [lastPathComponent]
  | cons c rest ih =>
      by_cases hc : c = '/'
      · simpa [lastPathComponent, hc] using ih
      · cases hr : containsSlash rest with
        | true => simpa [lastPathComponent, hc, hr] using ih
        | false =>
            simp only [lastPathComponent, hc, hr, if_neg, Bool.false_eq_true,
              if_false]
            intro hmem
            rcases List.mem_cons.1 hmem with h1 | h1
            · exact hc h1.symm
            · exact absurd (containsSlash_iff.2 h1) (by simp [hr])

theorem lastPathComponent_is_suffix (l : List Char) :
    ∃ pre, l = pre ++ lastPathComponent l ∧
      (pre = [] ∨ pre.getLast? = some '/') := by
  induction l with
  | nil => exact ⟨[], rfl, Or.inl rfl⟩
  | cons c rest ih =>
      by_cases hc : c = '/'
      · obtain ⟨pre, hp, hlast⟩ := ih
        refine ⟨c :: pre, by simp [lastPathComponent, hc, ← hp], Or.inr ?_⟩
        cases pre with
        | nil => simp [hc]
        | cons p0 pre2 =>
            rcases hlast with h0 | h0
            · exact absurd h0 (by simp)
            · rw [List.getLast?_cons_cons]
              exact h0
      · cases hr : containsSlash rest with
        | true =>
            obtain ⟨pre, hp, hlast⟩ := ih
            have hpre : pre ≠ [] := by
              intro h0
              rw [h0] at hp
              simp only [List.nil_append] at hp
              have hmem : '/' ∈ rest := containsSlash_iff.1 hr
              rw [hp] at hmem
              exact slash_not_mem_lastPathComponent rest hmem
            refine ⟨c :: pre, by simp [lastPathComponent, hc, hr, ← hp],
              Or.inr ?_⟩
            cases pre with
            | nil => exact absurd rfl hpre
            | cons p0 pre2 =>
                rcases hlast with h0 | h0
                · exact absurd h0 (by simp)
                · rw [List.getLast?_cons_cons]
                  exact h0
        | false => exact ⟨[], by simp [lastPathComponent, hc, hr], Or.inl rfl⟩

/-! Helper lemmas about result ranking and `query`. -/

theorem mem_insertResult {a r : Result} {l : List Result} :
    a ∈ insertResult r l ↔ a = r ∨ a ∈ l := by
  induction l with
  | nil => simp [insertResult]
  | cons x xs ih =>
      cases h : resultBefore r x <;>
        simp [insertResult, h, List.mem_cons, ih] <;> tauto

theorem mem_sortResults {a : Result} {l : List Result} :
    a ∈ sortResults l ↔ a ∈ l := by
  induction l with
  | nil => simp [sortResults]
  | cons r rs ih => simp [sortResults, mem_insertResult, ih]

theorem scoreEntries_id_lt (score : BowVector → BowVector → Int) (v : BowVector) :
    ∀ (es : List BowVector) (i : Nat) (r : Result),
      r ∈ scoreEntries score v i es → r.Id < i + es.length := by
  intro es
  induction es with
  | nil => intro i r h; simp [scoreEntries] at h
  | cons e es ih =>
      intro i r h
      simp only [scoreEntries, List.mem_cons] at h
      rcases h with h | h
      · subst h
        show i < i + (e :: es).length
        simp only [List.length_cons]
        omega
      · have := ih (i + 1) r h
        simp only [List.length_cons]
        omega

theorem query_id_lt {db : OrbDatabase} {score : BowVector → BowVector → Int}
    {f : ImageDescriptors} {n : Int} {r : Result}
    (h : r ∈ db.query score f n) : r.Id < db.entries.length := by
  unfold OrbDatabase.query at h
  have h1 := List.mem_of_mem_take h
  rw [mem_sortResults] at h1
  have h2 := scoreEntries_id_lt score (db.voc.transform f) db.entries 0 r h1
  omega

/-! Helper lemmas about the add loop. -/

theorem foldl_add_entries (voc : OrbVocabulary) :
    ∀ (imgs : List ImageDescriptors) (acc : List BowVector),
      imgs.foldl (fun (d : OrbDatabase) f => (d.add f).1)
          (⟨voc, acc⟩ : OrbDatabase) =
        (⟨voc, acc ++ imgs.map voc.transform⟩ : OrbDatabase) := by
  intro imgs
  induction imgs with
  | nil => intro acc; simp
  | cons f rest ih =>
      intro acc
      have step : ((⟨voc, acc⟩ : OrbDatabase).add f).1 =
          (⟨voc, acc ++ [voc.transform f]⟩ : OrbDatabase) := rfl
      rw [List.foldl_cons, step, ih (acc ++ [voc.transform f])]
      simp

theorem addAll_go (voc : OrbVocabulary) :
    ∀ (imgs : List ImageDescriptors) (acc : List BowVector) (tr : List Nat),
      imgs.foldl (fun (s : OrbDatabase × List Nat) f =>
          ((s.1.add f).1, s.2 ++ [(s.1.add f).2]))
          ((⟨voc, acc⟩ : OrbDatabase), tr) =
        ((⟨voc, acc ++ imgs.map voc.transform⟩ : OrbDatabase),
         tr ++ (List.range imgs.length).map (fun i => i + acc.length)) := by
  intro imgs
  induction imgs with
  | nil => intro acc tr; simp
  | cons f rest ih =>
      intro acc tr
      have step :
          (((((⟨voc, acc⟩ : OrbDatabase), tr)).1.add f).1,
            (((⟨voc, acc⟩ : OrbDatabase), tr)).2 ++
              [((((⟨voc, acc⟩ : OrbDatabase), tr)).1.add f).2]) =
          ((⟨voc, acc ++ [voc.transform f]⟩ : OrbDatabase), tr ++ [acc.length]) := rfl
      rw [List.foldl_cons, step, ih (acc ++ [voc.transform f]) (tr ++ [acc.length])]
      simp only [List.length_cons, Prod.mk.injEq]
      refine ⟨?_, ?_⟩
      · simp
      · simp only [List.range_succ_eq_map, List.map_cons, List.map_map]
        have hfun : ((fun i => i + acc.length) ∘ Nat.succ) =
            fun i => i + (acc ++ [voc.transform f]).length := by
          funext i
          simp only [Function.comp_apply, Nat.succ_eq_add_one,
            List.length_append, List.length_cons, List.length_nil]
          omega
        simp [hfun]

theorem addAll_fst (voc : OrbVocabulary) (imgs : List ImageDescriptors) :
    (addAll ⟨voc, []⟩ imgs).1 = ⟨voc, imgs.map voc.transform⟩ := by
  simp [addAll, addAll_go]

theorem addAll_snd (voc : OrbVocabulary) (imgs : List ImageDescriptors) :
    (addAll ⟨voc, []⟩ imgs).2 = List.range imgs.length := by
  simp [addAll, addAll_go]

theorem getD_range_of_lt {n i : Nat} (h : i < n) :
    (List.range n).getD i 0 = i := by
  rw [List.getD_eq_getElem?_getD, List.getElem?_range h]
  rfl

theorem getD_map_of_lt {α β : Type} (f : α → β) (l : List α) {i : Nat}
    (h : i < l.length) (d : α) (d2 : β) :
    (l.map f).getD i d2 = f (l.getD i d) := by
  rw [List.getD_eq_getElem?_getD, List.getD_eq_getElem?_getD,
    List.getElem?_map, List.getElem?_eq_getElem h]
  rfl

/-! Helper lemmas about the YAML report node. -/

theorem yamlAssign_of_not_mem {m : YamlMap} {k : String} {v : List Proposal}
    (h : ∀ p ∈ m, p.1 ≠ k) : yamlAssign m k v = m ++ [(k, v)] := by
  unfold yamlAssign
  rw [if_neg]
  simp only [List.any_eq_true, decide_eq_true_eq, not_exists]
  intro p hp
  exact h p hp.1 hp.2

theorem yamlLookup_yamlAssign (m : YamlMap) (k : String) (v : List Proposal) :
    yamlLookup (yamlAssign m k v) k = some v := by
  induction m with
  | nil => simp [yamlAssign, yamlLookup]
  | cons p m ih =>
      by_cases hp : p.1 = k
      · have ha : (p :: m).any (fun q => decide (q.1 = k)) = true := by
          simp [List.any_cons, hp]
        simp only [yamlAssign, ha, if_true, List.map_cons, if_pos hp]
        simp [yamlLookup]
      · cases ha : m.any (fun q => decide (q.1 = k)) with
        | true =>
            have ha' : (p :: m).any (fun q => decide (q.1 = k)) = true := by
              simp [List.any_cons, ha]
            have hassign : yamlAssign m k v =
                m.map (fun q => if q.1 = k then (k, v) else q) := by
              simp [yamlAssign, ha]
            simp only [yamlAssign, ha', if_true, List.map_cons, if_neg hp]
            simp only [yamlLookup, if_neg hp]
            rw [← hassign]
            exact ih
        | false =>
            have ha' : (p :: m).any (fun q => decide (q.1 = k)) = false := by
              simp only [List.any_cons, Bool.or_eq_false_iff]
              exact ⟨by simp [hp], ha⟩
            have hassign : yamlAssign m k v = m ++ [(k, v)] := by
              simp [yamlAssign, ha]
            simp only [yamlAssign, ha', Bool.false_eq_true, if_false,
              List.cons_append]
            simp only [yamlLookup, if_neg hp]
            rw [← hassign]
            exact ih

theorem yamlKeys_yamlAssign (m : YamlMap) (k : String) (v : List Proposal) :
    yamlKeys (yamlAssign m k v) =
      if m.any (fun p => p.1 = k) then yamlKeys m else yamlKeys m ++ [k] := by
  unfold yamlAssign yamlKeys
  cases h : m.any (fun p => decide (p.1 = k)) with
  | true =>
      simp only [h, if_true, List.map_map]
      apply List.map_congr_left
      intro p _
      simp only [Function.comp_apply]
      by_cases hp : p.1 = k
      · simp [hp]
      · simp [hp]
  | false => simp [h]

theorem mem_yamlAssign_key {m : YamlMap} {k : String} {v : List Proposal}
    {q : String × List Proposal} (h : q ∈ yamlAssign m k v) :
    q.1 = k ∨ q.1 ∈ yamlKeys m := by
  unfold yamlAssign at h
  split at h
  · rcases List.mem_map.1 h with ⟨p, hp, hq⟩
    by_cases hpk : p.1 = k
    · left; rw [← hq]; simp [hpk]
    · right
      rw [← hq]
      simp only [hpk, if_neg, not_false_iff]
      exact List.mem_map_of_mem _ hp
  · rcases List.mem_append.1 h with h1 | h1
    · right; exact List.mem_map_of_mem _ h1
    · left
      rcases List.mem_singleton.1 h1 with rfl
      rfl

/-! Helper lemmas about the report loop. -/

theorem reportLoop_key_from_target (score : BowVector → BowVector → Int)
    (db : OrbDatabase) (mn : List String) (topn : Int) :
    ∀ (targets : List (ImageDescriptors × String)) (data : YamlMap)
      (q : String × List Proposal),
      q ∈ reportLoop score db mn topn targets data →
      q.1 ∈ yamlKeys data ∨ ∃ p ∈ targets, q.1 = get_file_name p.2 := by
  intro targets
  induction targets with
  | nil =>
      intro data q h
      left
      simp only [reportLoop] at h
      exact List.mem_map_of_mem _ h
  | cons p rest ih =>
      intro data q h
      simp only [reportLoop] at h
      split at h
      · rcases ih _ _ h with h1 | ⟨p2, hp2, he⟩
        · exact Or.inl h1
        · exact Or.inr ⟨p2, List.mem_cons_of_mem _ hp2, he⟩
      · rcases ih _ _ h with h1 | ⟨p2, hp2, he⟩
        · rw [yamlKeys_yamlAssign] at h1
          split at h1
          · exact Or.inl h1
          · rcases List.mem_append.1 h1 with h2 | h2
            · exact Or.inl h2
            · exact Or.inr ⟨p, List.mem_cons_self _ _,
                List.mem_singleton.1 h2⟩
        · exact Or.inr ⟨p2, List.mem_cons_of_mem _ hp2, he⟩

theorem reportLoop_eq_of_nodup (score : BowVector → BowVector → Int)
    (db : OrbDatabase) (mn : List String) (topn : Int) :
    ∀ (targets : List (ImageDescriptors × String)) (data : YamlMap),
      (yamlKeys data ++
        (emittedTargets score db topn targets).map
          (fun p => get_file_name p.2)).Nodup →
      reportLoop score db mn topn targets data =
        data ++ (emittedTargets score db topn targets).map
          (fun p => (get_file_name p.2, mkProposals mn (db.query score p.1 topn))) := by
  intro targets
  induction targets with
  | nil =>
      intro data _
      simp [reportLoop, emittedTargets]
  | cons p rest ih =>
      intro data h
      cases he : (db.query score p.1 topn).isEmpty with
      | true =>
          have hemit : emittedTargets score db topn (p :: rest) =
              emittedTargets score db topn rest := by
            simp [emittedTargets, List.filter_cons, he]
          simp only [reportLoop, he, if_true]
          rw [hemit] at h
          rw [ih data h, hemit]
      | false =>
          have hemit : emittedTargets score db topn (p :: rest) =
              p :: emittedTargets score db topn rest := by
            simp [emittedTargets, List.filter_cons, he]
          rw [hemit] at h
          simp only [List.map_cons] at h
          have hkey : get_file_name p.2 ∉ yamlKeys data := by
            rw [List.nodup_append] at h
            intro hk
            exact h.2.2 hk (List.mem_cons_self _ _)
          have hdata : ∀ q ∈ data, q.1 ≠ get_file_name p.2 := by
            intro q hq hqk
            exact hkey (hqk ▸ List.mem_map_of_mem _ hq)
          simp only [reportLoop, he, Bool.false_eq_true, if_false]
          rw [yamlAssign_of_not_mem hdata]
          have h2 : (yamlKeys (data ++ [(get_file_name p.2,
              mkProposals mn (db.query score p.1 topn))]) ++
              (emittedTargets score db topn rest).map
                (fun p => get_file_name p.2)).Nodup := by
            simp only [yamlKeys, List.map_append, List.map_cons, List.map_nil]
            rw [List.append_assoc]
            simpa [yamlKeys] using h
          rw [ih _ h2, hemit]
          simp

/-! Run lemmas for `testDatabase`, shared by several claim theorems. -/

theorem testDatabase_load_run (score : BowVector → BowVector → Int)
    (m t : List ImageDescriptors) (mn tn : List String) (topn : Int)
    (fs : FileSystem) (db0 : OrbDatabase) (hdb : fs.dbFile = some db0) :
    testDatabase score m t mn tn topn fs =
      .ok (db0, (⟨fs.vocFile, fs.dbFile,
        some (reportLoop score db0 mn topn (t.zip tn) [])⟩ : FileSystem)) := by
  simp [testDatabase, OrbDatabase.load, hdb]

theorem testDatabase_fresh_run (score : BowVector → BowVector → Int)
    (m t : List ImageDescriptors) (mn tn : List String) (topn : Int)
    (fs : FileSystem) (voc : OrbVocabulary)
    (hdb : fs.dbFile = none) (hvoc : fs.vocFile = some voc) :
    testDatabase score m t mn tn topn fs =
      .ok ((addAll ⟨voc, []⟩ m).1,
        (⟨fs.vocFile, some ((addAll ⟨voc, []⟩ m).1),
          some (reportLoop score ((addAll ⟨voc, []⟩ m).1)
            mn topn (t.zip tn) [])⟩ : FileSystem)) := by
  have hfold : m.foldl (fun (d : OrbDatabase) f => (d.add f).1)
      (⟨voc, []⟩ : OrbDatabase) = (addAll ⟨voc, []⟩ m).1 := by
    rw [foldl_add_entries voc m [], addAll_fst]
    simp
  simp only [testDatabase, OrbDatabase.load, hdb, OrbVocabulary.load, hvoc]
  rw [hfold]
  simp [OrbDatabase.save, hvoc]

/-! Claim theorems. -/

/-- Claim C1, counterexample: the claim states that when a persisted
vocabulary file exists it is deserialized and returned and the memory
corpus is ignored.  On a filesystem whose vocabulary file holds a
vocabulary trained with different parameters, `testVocCreation` returns a
freshly trained vocabulary instead of the stored one, and disagrees with
the spec's `trainOrLoad` — the stored file is never read. -/
theorem vocCreation_ignores_existing_file :
    (testVocCreation [[[7]]]
        ⟨some (OrbVocabulary.init 1 1 WeightingType.TF ScoringType.L2_NORM),
         none, none⟩).1 ≠
      OrbVocabulary.init 1 1 WeightingType.TF ScoringType.L2_NORM ∧
    testVocCreation [[[7]]]
        ⟨some (OrbVocabulary.init 1 1 WeightingType.TF ScoringType.L2_NORM),
         none, none⟩ ≠
      trainOrLoad
        ⟨some (OrbVocabulary.init 1 1 WeightingType.TF ScoringType.L2_NORM),
         none, none⟩
        [[[7]]] 9 3 WeightingType.TF_IDF ScoringType.L1_NORM := by
  decide

/-- Claim C1, amended: the Vocabulary Manager step unconditionally trains a
new vocabulary from the memory corpus with the demo parameters (k = 9,
L = 3, TF-IDF, L1 norm) and persists it, overwriting any existing
vocabulary file; it behaves as `trainOrLoad` would on a filesystem where
the vocabulary file never exists. -/
theorem testVocCreation_always_trains (memory_imgs : List ImageDescriptors)
    (fs : FileSystem) :
    testVocCreation memory_imgs fs =
      trainOrLoad { fs with vocFile := none } memory_imgs 9 3
        WeightingType.TF_IDF ScoringType.L1_NORM ∧
    (testVocCreation memory_imgs fs).2.vocFile =
      some ((OrbVocabulary.init 9 3 WeightingType.TF_IDF
        ScoringType.L1_NORM).create memory_imgs) :=
  ⟨rfl, rfl⟩

/-- Claim C2: `testDatabase` behaves as `buildOrLoad`.  When the persisted
index file exists, the database it holds (embedding its own vocabulary) is
used, and neither the memory corpus nor the vocabulary file influences the
database or the report; otherwise an empty database bound to the loaded
vocabulary is built, every memory image is added in corpus order with ids
`0, 1, ...` assigned in sequence, and the result is persisted to the index
file. -/
theorem testDatabase_buildOrLoad (score : BowVector → BowVector → Int)
    (m t : List ImageDescriptors) (mn tn : List String) (topn : Int)
    (fs : FileSystem) :
    (∀ db0, OrbDatabase.load fs = some db0 →
       resultDb (testDatabase score m t mn tn topn fs) = some db0 ∧
       ∀ (m2 : List ImageDescriptors) (vf2 : Option OrbVocabulary),
         resultDb (testDatabase score m2 t mn tn topn
           { fs with vocFile := vf2 }) = some db0 ∧
         resultOutput (testDatabase score m2 t mn tn topn
           { fs with vocFile := vf2 }) =
           resultOutput (testDatabase score m t mn tn topn fs)) ∧
    (OrbDatabase.load fs = none → ∀ voc, OrbVocabulary.load fs = some voc →
       ∃ fsF, testDatabase score m t mn tn topn fs =
           .ok ((addAll ⟨voc, []⟩ m).1, fsF) ∧
         (addAll ⟨voc, []⟩ m).1.entries = m.map voc.transform ∧
         (addAll ⟨voc, []⟩ m).2 = List.range m.length ∧
         fsF.dbFile = some ((addAll ⟨voc, []⟩ m).1) ∧
         fsF.outputYaml = some (reportLoop score ((addAll ⟨voc, []⟩ m).1)
           mn topn (t.zip tn) [])) := by
  constructor
  · intro db0 h
    have hdb : fs.dbFile = some db0 := h
    refine ⟨by rw [testDatabase_load_run score m t mn tn topn fs db0 hdb]; rfl, ?_⟩
    intro m2 vf2
    have hdb2 : ({ fs with vocFile := vf2 } : FileSystem).dbFile = some db0 := hdb
    constructor
    · rw [testDatabase_load_run score m2 t mn tn topn _ db0 hdb2]
      rfl
    · rw [testDatabase_load_run score m2 t mn tn topn _ db0 hdb2,
        testDatabase_load_run score m t mn tn topn fs db0 hdb]
      rfl
  · intro h voc hv
    have hdb : fs.dbFile = none := h
    have hvoc : fs.vocFile = some voc := hv
    refine ⟨_, testDatabase_fresh_run score m t mn tn topn fs voc hdb hvoc,
      ?_, addAll_snd voc m, rfl, rfl⟩
    rw [addAll_fst]

/-- Claim C2, witness: concrete runs through both branches of
`testDatabase_buildOrLoad`: a load-branch run returning the persisted
database, and a fresh-build run producing the add-loop database. -/
theorem testDatabase_buildOrLoad_witness :
    OrbDatabase.load (⟨none, some ⟨wVoc, []⟩, none⟩ : FileSystem) =
      some ⟨wVoc, []⟩ ∧
    resultDb (testDatabase wScore [] [] [] [] 1 ⟨none, some ⟨wVoc, []⟩, none⟩) =
      some ⟨wVoc, []⟩ ∧
    (∃ fsF, testDatabase wScore [[[1]]] [] [] [] 1 ⟨some wVoc, none, none⟩ =
        .ok ((addAll ⟨wVoc, []⟩ [[[1]]]).1, fsF) ∧
      (addAll ⟨wVoc, []⟩ [[[1]]]).1.entries =
        ([[[1]]] : List ImageDescriptors).map wVoc.transform ∧
      (addAll ⟨wVoc, []⟩ [[[1]]]).2 = List.range 1 ∧
      fsF.dbFile = some ((addAll ⟨wVoc, []⟩ [[[1]]]).1) ∧
      fsF.outputYaml = some (reportLoop wScore ((addAll ⟨wVoc, []⟩ [[[1]]]).1)
        [] 1 (List.zip ([] : List ImageDescriptors) ([] : List String)) [])) := by
  refine ⟨rfl, ?_, ?_⟩
  · exact ((testDatabase_buildOrLoad wScore [] [] [] [] 1
      ⟨none, some ⟨wVoc, []⟩, none⟩).1 ⟨wVoc, []⟩ rfl).1
  · exact (testDatabase_buildOrLoad wScore [[[1]]] [] [] [] 1
      ⟨some wVoc, none, none⟩).2 rfl wVoc rfl

/-- Claim C3: after a fresh build from a non-empty memory corpus, the
database holds exactly `len(memoryCorpus)` entries; the entry at position
`i` is the transform of the `i`-th memory image, the `i`-th `add` call was
assigned id `i`, and the name sequence has the same length, so the name at
position `id` is the source path of the image that received `id`. -/
theorem freshBuild_positional (score : BowVector → BowVector → Int)
    (m t : List ImageDescriptors) (mn tn : List String) (topn : Int)
    (fs : FileSystem) (voc : OrbVocabulary)
    (hdb : OrbDatabase.load fs = none)
    (hvoc : OrbVocabulary.load fs = some voc)
    (hne : m ≠ []) (hlen : mn.length = m.length) :
    ∃ db fsF, testDatabase score m t mn tn topn fs = .ok (db, fsF) ∧
      db.entries.length = m.length ∧
      db.entries = m.map voc.transform ∧
      db.entries.length = mn.length ∧
      (∀ i, i < m.length →
        (addAll ⟨voc, []⟩ m).2.getD i 0 = i ∧
        db.entries.getD i (voc.transform []) = voc.transform (m.getD i [])) := by
  have hdb' : fs.dbFile = none := hdb
  have hvoc' : fs.vocFile = some voc := hvoc
  have hentries : (addAll ⟨voc, []⟩ m).1.entries = m.map voc.transform := by
    rw [addAll_fst]
  refine ⟨(addAll ⟨voc, []⟩ m).1, _,
    testDatabase_fresh_run score m t mn tn topn fs voc hdb' hvoc',
    ?_, hentries, ?_, ?_⟩
  · rw [hentries, List.length_map]
  · rw [hentries, List.length_map, hlen]
  · intro i hi
    constructor
    · rw [addAll_snd voc m, getD_range_of_lt hi]
    · rw [hentries, getD_map_of_lt voc.transform m hi []]

/-- Claim C3, witness: a concrete fresh build from a two-image corpus with
a matching name sequence. -/
theorem freshBuild_positional_witness :
    ([[[1]], [[2]]] : List ImageDescriptors) ≠ [] ∧
    (["d/a.jpg", "d/b.jpg"] : List String).length =
      ([[[1]], [[2]]] : List ImageDescriptors).length ∧
    (∃ db fsF, testDatabase wScore [[[1]], [[2]]] [] ["d/a.jpg", "d/b.jpg"]
        [] 0 ⟨some wVoc, none, none⟩ = .ok (db, fsF) ∧
      db.entries.length = 2) := by
  refine ⟨by decide, by decide, ?_⟩
  obtain ⟨db, fsF, h1, h2, -, -, -⟩ :=
    freshBuild_positional wScore [[[1]], [[2]]] [] ["d/a.jpg", "d/b.jpg"] []
      0 ⟨some wVoc, none, none⟩ wVoc rfl rfl (by decide) (by decide)
  exact ⟨db, fsF, h1, h2⟩

/-- Claim C5: persisting a database and loading the persisted copy yields a
database whose `query` results are identical to the live instance's at save
time, for every input and every `topN` between `0` and the entry count. -/
theorem saveLoad_query_roundtrip (score : BowVector → BowVector → Int)
    (db : OrbDatabase) (fs : FileSystem) (input : ImageDescriptors)
    (topn : Int) (h0 : 0 ≤ topn)
    (hn : topn ≤ (db.entries.length : Int)) :
    OrbDatabase.load (db.save fs) = some db ∧
    ∀ db2, OrbDatabase.load (db.save fs) = some db2 →
      db2.query score input topn = db.query score input topn := by
  refine ⟨rfl, ?_⟩
  intro db2 h
  have h2 : some db = some db2 := h
  injection h2 with h3
  rw [h3]

/-- Claim C5, witness: a concrete save-then-load round trip on a one-entry
database, with `topN = 1` inside `[0, n]`. -/
theorem saveLoad_query_roundtrip_witness :
    (0 : Int) ≤ 1 ∧
    (1 : Int) ≤ (((⟨wVoc, [wVoc.transform [[3]]]⟩ :
      OrbDatabase).entries.length : Int)) ∧
    OrbDatabase.load ((⟨wVoc, [wVoc.transform [[3]]]⟩ : OrbDatabase).save
        ⟨none, none, none⟩) =
      some ⟨wVoc, [wVoc.transform [[3]]]⟩ := by
  refine ⟨by decide, by decide, ?_⟩
  exact (saveLoad_query_roundtrip wScore ⟨wVoc, [wVoc.transform [[3]]]⟩
    ⟨none, none, none⟩ [[4]] 1 (by decide) (by decide)).1

/-- Claim C4, counterexample: two distinct target source paths sharing the
base name `t.png` produce a report with a single key — the second target's
proposals silently replace the first's, so both occurrences are not
preserved as report keys. -/
theorem report_key_collision_counterexample :
    ("d1/t.png" : String) ≠ "d2/t.png" ∧
    get_file_name "d1/t.png" = get_file_name "d2/t.png" ∧
    resultOutput (testDatabase (fun a _ => if a.features = [[2]] then 10 else 20)
        [[[5]]] [[[2]], [[3]]] ["mem/q.jpg"] ["d1/t.png", "d2/t.png"] 1
        ⟨some wVoc, none, none⟩) =
      some [("t.png", [⟨"q.jpg", 20⟩])] := by
  decide

/-- Claim C4, amended: proposal identifiers preserve both occurrences — the
proposals node is a sequence holding one record per query result, never
deduplicated even when stripped memory names collide; report keys are not
collision-safe — assigning to an existing key overwrites its value in
place, so of two targets sharing a base name only the later one's
proposals survive, under the already-present key. -/
theorem report_collision_policy (mn : List String) (ret : List Result)
    (data : YamlMap) (k : String) (v : List Proposal) :
    (mkProposals mn ret).length = ret.length ∧
    yamlLookup (yamlAssign data k v) k = some v ∧
    yamlKeys (yamlAssign data k v) =
      (if data.any (fun p => p.1 = k) then yamlKeys data
       else yamlKeys data ++ [k]) :=
  ⟨by simp [mkProposals], yamlLookup_yamlAssign data k v,
    yamlKeys_yamlAssign data k v⟩

/-- Claim C6: `get_file_name` returns exactly the final path component
after the last separator.  The conjuncts pin the value down: the result
contains no separator; a path without a separator is returned unchanged;
every `"/"`-delimited prefix is stripped (splitting the input at any
separator leaves the function's value on the remainder unchanged — the
recursive form of the source's erase loop); and the result is the suffix
of the input whose dropped prefix is empty or ends with the separator,
which together with separator-freeness identifies it as the base name.
This value is the file name recorded in every proposal and the key of
every report entry. -/
theorem get_file_name_spec (s : String) :
    '/' ∉ (get_file_name s).data ∧
    ('/' ∉ s.data → get_file_name s = s) ∧
    (∀ (pre rest : List Char), s.data = pre ++ '/' :: rest →
       get_file_name s = get_file_name (String.mk rest)) ∧
    (∃ pre, s.data = pre ++ (get_file_name s).data ∧
       (pre = [] ∨ pre.getLast? = some '/')) ∧
    (∀ (mn : List String) (ret : List Result) (r : Result), r ∈ ret →
       (⟨get_file_name (mn.getD r.Id ""), r.Score⟩ : Proposal) ∈
         mkProposals mn ret) ∧
    (∀ (score : BowVector → BowVector → Int) (db : OrbDatabase)
       (mn : List String) (topn : Int)
       (targets : List (ImageDescriptors × String))
       (q : String × List Proposal),
       q ∈ reportLoop score db mn topn targets [] →
       ∃ p ∈ targets, q.1 = get_file_name p.2) := by
  refine ⟨?_, ?_, ?_, ?_, ?_, ?_⟩
  · exact slash_not_mem_lastPathComponent s.data
  · intro h
    have hc : containsSlash s.data = false := by
      cases hcs : containsSlash s.data with
      | false => rfl
      | true => exact absurd (containsSlash_iff.1 hcs) h
    show String.mk (lastPathComponent s.data) = s
    rw [lastPathComponent_of_no_slash hc]
  · intro pre rest h
    show String.mk (lastPathComponent s.data) =
      String.mk (lastPathComponent (String.mk rest).data)
    rw [h, lastPathComponent_append_slash]
  · exact lastPathComponent_is_suffix s.data
  · intro mn ret r hr
    exact List.mem_map_of_mem _ hr
  · intro score db mn topn targets q h
    rcases reportLoop_key_from_target score db mn topn targets [] q h with
      h1 | h1
    · simp [yamlKeys] at h1
    · exact h1

/-- Claim C6, witness: concrete evaluations of `get_file_name_spec`,
including stripping a two-level directory prefix down to the base name. -/
theorem get_file_name_spec_witness :
    get_file_name "img.png" = "img.png" ∧
    get_file_name "dir/sub/img.png" = "img.png" ∧
    '/' ∉ (get_file_name "dir/sub/img.png").data ∧
    (⟨get_file_name "m/q.jpg", 3⟩ : Proposal) ∈
      mkProposals ["m/q.jpg"] [⟨0, 3⟩] := by
  have h1 : get_file_name "img.png" = "img.png" :=
    (get_file_name_spec "img.png").2.1 (by decide)
  have h2 : get_file_name "dir/sub/img.png" = get_file_name "img.png" :=
    (get_file_name_spec "dir/sub/img.png").2.2.1
      "dir/sub".data "img.png".data (by decide)
  refine ⟨h1, h2.trans h1, (get_file_name_spec "dir/sub/img.png").1, ?_⟩
  exact (get_file_name_spec "m/q.jpg").2.2.2.2.1 ["m/q.jpg"] [⟨0, 3⟩] ⟨0, 3⟩
    (by decide)

/-- Claim C7: a wrong argument count makes the run end as `usageError`
(usage message, exit status `-1`, filesystem untouched), and with four
arguments an unparseable `TOP_N` makes it end as `stoiAbort` (uncaught
`std::invalid_argument`, non-zero exit status, filesystem untouched);
both outcomes carry the input filesystem unchanged, so no partial output
is produced. -/
theorem main_startup_errors (argv : List String)
    (score : BowVector → BowVector → Int)
    (memory : List ImageDescriptors) (mn : List String)
    (targets : List ImageDescriptors) (tn : List String) (fs : FileSystem) :
    (argv.length ≠ 4 →
       mainRun argv score memory mn targets tn fs =
         MainResult.usageError fs) ∧
    (argv.length = 4 → stoi? (argv.getD 3 "") = none →
       mainRun argv score memory mn targets tn fs =
         MainResult.stoiAbort fs) := by
  constructor
  · intro h
    simp [mainRun, h]
  · intro h4 hs
    have h4' : ¬(argv.length ≠ 4) := by simp [h4]
    simp only [mainRun, if_neg h4', hs]

/-- Claim C7, witness: a one-argument invocation yields the usage error and
a non-numeric `TOP_N` yields the parse abort, both leaving the filesystem
unchanged. -/
theorem main_startup_errors_witness :
    (["./demo"] : List String).length ≠ 4 ∧
    mainRun ["./demo"] wScore [] [] [] [] ⟨none, none, none⟩ =
      MainResult.usageError ⟨none, none, none⟩ ∧
    stoi? "abc" = none ∧
    mainRun ["./demo", "mem", "tgt", "abc"] wScore [] [] [] []
        ⟨none, none, none⟩ =
      MainResult.stoiAbort ⟨none, none, none⟩ := by
  refine ⟨by decide, ?_, by decide, ?_⟩
  · exact (main_startup_errors ["./demo"] wScore [] [] [] []
      ⟨none, none, none⟩).1 (by decide)
  · exact (main_startup_errors ["./demo", "mem", "tgt", "abc"] wScore [] [] []
      [] ⟨none, none, none⟩).2 (by decide) (by decide)

/-- Claim C8, counterexample: both targets have non-empty query results,
but because their stripped names collide, the report contains a single
entry holding only the second target's proposals — the first non-empty
target does not appear in the report, contradicting the claim that every
target with non-empty results appears in processing order. -/
theorem report_order_counterexample :
    (⟨wVoc, [wVoc.transform [[0]]]⟩ : OrbDatabase).query cexScore [[0]] 1 ≠
      [] ∧
    (⟨wVoc, [wVoc.transform [[0]]]⟩ : OrbDatabase).query cexScore [[1]] 1 ≠
      [] ∧
    mkProposals ["m/p.jpg"]
        ((⟨wVoc, [wVoc.transform [[0]]]⟩ : OrbDatabase).query cexScore
          [[0]] 1) =
      [⟨"p.jpg", 1⟩] ∧
    resultDb (testDatabase cexScore [[[0]]] [[[0]], [[1]]] ["m/p.jpg"]
        ["a/x.jpg", "b/x.jpg"] 1 ⟨some wVoc, none, none⟩) =
      some ⟨wVoc, [wVoc.transform [[0]]]⟩ ∧
    resultOutput (testDatabase cexScore [[[0]]] [[[0]], [[1]]] ["m/p.jpg"]
        ["a/x.jpg", "b/x.jpg"] 1 ⟨some wVoc, none, none⟩) =
      some [("x.jpg", [⟨"p.jpg", 2⟩])] ∧
    ("x.jpg", [(⟨"p.jpg", 1⟩ : Proposal)]) ∉
      [("x.jpg", [(⟨"p.jpg", 2⟩ : Proposal)])] := by
  decide

/-- Claim C8, amended: a target whose query result set is empty is skipped
— no report entry is emitted and processing continues; and provided the
stripped names of the emitted targets are pairwise distinct, the report is
exactly one entry per non-empty-result target, in target-corpus processing
order (a colliding later target would instead overwrite the earlier entry
in place). -/
theorem report_emission_order (score : BowVector → BowVector → Int)
    (db : OrbDatabase) (mn : List String) (topn : Int)
    (targets : List (ImageDescriptors × String))
    (hnodup : ((emittedTargets score db topn targets).map
        (fun p => get_file_name p.2)).Nodup) :
    reportLoop score db mn topn targets [] =
      (emittedTargets score db topn targets).map
        (fun p => (get_file_name p.2,
          mkProposals mn (db.query score p.1 topn))) := by
  have h := reportLoop_eq_of_nodup score db mn topn targets []
    (by simpa [yamlKeys] using hnodup)
  simpa using h

/-- Claim C8, witness: with distinct stripped target names, the report
lists one entry per non-empty target in processing order. -/
theorem report_emission_order_witness :
    ((emittedTargets cexScore ⟨wVoc, [wVoc.transform [[0]]]⟩ 1
        [([[0]], "a/x.jpg"), ([[1]], "b/y.jpg")]).map
      (fun p => get_file_name p.2)).Nodup ∧
    reportLoop cexScore ⟨wVoc, [wVoc.transform [[0]]]⟩ ["m/p.jpg"] 1
        [([[0]], "a/x.jpg"), ([[1]], "b/y.jpg")] [] =
      [("x.jpg", [⟨"p.jpg", 1⟩]), ("y.jpg", [⟨"p.jpg", 2⟩])] := by
  have h := report_emission_order cexScore
    (⟨wVoc, [wVoc.transform [[0]]]⟩ : OrbDatabase) ["m/p.jpg"] 1
    [([[0]], "a/x.jpg"), ([[1]], "b/y.jpg")] (by decide)
  exact ⟨by decide, h.trans (by decide)⟩

/-- Claim C9: the vocabulary produced by a run depends only on the memory
corpus — two runs differing only in the target corpus (and target names)
yield the same live vocabulary, so target descriptors never influence the
trained vocabulary. -/
theorem vocabulary_targets_noninterference (argv : List String)
    (score : BowVector → BowVector → Int) (memory : List ImageDescriptors)
    (mn : List String) (t1 : List ImageDescriptors) (tn1 : List String)
    (t2 : List ImageDescriptors) (tn2 : List String) (fs : FileSystem) :
    (mainRun argv score memory mn t1 tn1 fs).vocOf =
      (mainRun argv score memory mn t2 tn2 fs).vocOf := by
  by_cases h4 : argv.length = 4
  · have h4' : ¬(argv.length ≠ 4) := by simp [h4]
    cases hs : stoi? (argv.getD 3 "") with
    | none => simp only [mainRun, if_neg h4', hs]
    | some n =>
        simp only [mainRun, if_neg h4', hs]
        cases hdb : fs.dbFile with
        | some db =>
            rw [testDatabase_load_run score memory t1 mn tn1 n
                (testVocCreation memory fs).2 db
                (show (testVocCreation memory fs).2.dbFile = some db from hdb),
              testDatabase_load_run score memory t2 mn tn2 n
                (testVocCreation memory fs).2 db
                (show (testVocCreation memory fs).2.dbFile = some db from hdb)]
            rfl
        | none =>
            rw [testDatabase_fresh_run score memory t1 mn tn1 n
                (testVocCreation memory fs).2
                ((OrbVocabulary.init 9 3 WeightingType.TF_IDF
                  ScoringType.L1_NORM).create memory)
                (show (testVocCreation memory fs).2.dbFile = none from hdb) rfl,
              testDatabase_fresh_run score memory t2 mn tn2 n
                (testVocCreation memory fs).2
                ((OrbVocabulary.init 9 3 WeightingType.TF_IDF
                  ScoringType.L1_NORM).create memory)
                (show (testVocCreation memory fs).2.dbFile = none from hdb) rfl]
            rfl
  · simp [mainRun, h4]

/-- Claim C10: on the fresh-build branch, with the name sequence as long as
the memory corpus (as `loadFeatures` guarantees), every id in any query
result of the built database is strictly below the length of the
memory-image-name sequence, so `memory_img_names[r.Id]` is in bounds. -/
theorem freshBuild_result_ids_in_bounds (score : BowVector → BowVector → Int)
    (m t : List ImageDescriptors) (mn tn : List String) (topn : Int)
    (fs : FileSystem) (voc : OrbVocabulary)
    (hdb : OrbDatabase.load fs = none)
    (hvoc : OrbVocabulary.load fs = some voc)
    (hlen : mn.length = m.length) :
    ∀ db fsF, testDatabase score m t mn tn topn fs = .ok (db, fsF) →
      ∀ (q : ImageDescriptors) (r : Result),
        r ∈ db.query score q topn → r.Id < mn.length := by
  intro db fsF hrun q r hr
  have hdb' : fs.dbFile = none := hdb
  have hvoc' : fs.vocFile = some voc := hvoc
  rw [testDatabase_fresh_run score m t mn tn topn fs voc hdb' hvoc'] at hrun
  have hinj : (addAll ⟨voc, []⟩ m).1 = db := by
    have := congrArg (fun x => resultDb x) hrun
    simpa [resultDb] using this
  have hid := query_id_lt hr
  rw [← hinj, addAll_fst] at hid
  simp only [List.length_map] at hid
  omega

/-- Claim C10, witness: a concrete fresh build where the single query
result id is below the name-sequence length. -/
theorem freshBuild_ids_witness :
    (["mm/a.jpg"] : List String).length = ([[[4]]] :
      List ImageDescriptors).length ∧
    ∀ r, r ∈ (⟨wVoc, [wVoc.transform [[4]]]⟩ : OrbDatabase).query wScore
        [[9]] 1 → r.Id < 1 := by
  refine ⟨by decide, ?_⟩
  intro r hr
  exact freshBuild_result_ids_in_bounds wScore [[[4]]] [] ["mm/a.jpg"] [] 1
    ⟨some wVoc, none, none⟩ wVoc rfl rfl (by decide)
    ⟨wVoc, [wVoc.transform [[4]]]⟩
    ⟨some wVoc, some ⟨wVoc, [wVoc.transform [[4]]]⟩, some []⟩
    rfl [[9]] r hr

end Demo
